import Mathlib

/-!
Verification of the request-transformation core of `http-proxy`
(`src/proxy/common.ts`): `setupOutgoing`, the cookie rewriters and the
connection helpers, shallowly embedded in Lean.

Modelling conventions, stated once here:
* JS objects holding headers or query parameters are modelled as
  association lists `List (String × String)` with exact string keys
  (Node lower-cases incoming header names; own enumerable keys only).
* JS `undefined`/missing fields are `Option.none`; JS string falsiness
  (`""` is falsy) is checked explicitly where the source relies on it.
* The WHATWG `new URL(req.url, base)` call is modelled only in the part
  the source uses — splitting an origin-form request URL (one starting
  with `/`, no fragment, no percent-escapes) into pathname and query —
  and `URLSearchParams` as an ordered list of key/value pairs with the
  standard `set` semantics (replace the first occurrence in place and
  drop later ones, else append).
* `setupOutgoing` mutates the selected target object in place in the
  source; the embedding returns the post-call target alongside the
  outgoing descriptor so that this effect is observable.
* A thrown JS `TypeError` is an `Except.error`.
-/

namespace HttpProxy

/-- JS `\s` for the ASCII range, as used by the regexes in `common.ts`. -/
def isJsSpace (c : Char) : Bool :=
  c = ' ' || c = '\t' || c = '\n' || c = '\r' || c = '\x0b' || c = '\x0c'

/-- Lookup in a JS-object-as-association-list: value of the first pair
whose key matches exactly. -/
def assocGet : List (String × String) → String → Option String
  | [], _ => none
  | kv :: rest, k => if kv.1 = k then some kv.2 else assocGet rest k

/-- JS property assignment `obj[k] = v`: an existing key keeps its
insertion position and gets the new value, a new key is appended
(object key sets hold no duplicates). -/
def assocSet : List (String × String) → String → String → List (String × String)
  | [], k, v => [(k, v)]
  | kv :: rest, k, v => if kv.1 = k then (k, v) :: rest else kv :: assocSet rest k v

/-- JS `delete obj[k]` / assigning `undefined` where the model has no
undefined values: every pair with the key disappears from the map. -/
def assocErase : List (String × String) → String → List (String × String)
  | [], _ => []
  | kv :: rest, k => if kv.1 = k then assocErase rest k else kv :: assocErase rest k

/-- JS `Object.assign(base, upd)`: fold the updates left to right. -/
def assignAll (base upd : List (String × String)) : List (String × String) :=
  upd.foldl (fun acc kv => assocSet acc kv.1 kv.2) base

/-- `URLSearchParams.set(k, v)`: replace the first occurrence of `k` in
place, dropping any later occurrences of `k`; append when absent. -/
def paramsSet : List (String × String) → String → String → List (String × String)
  | [], k, v => [(k, v)]
  | kv :: rest, k, v =>
    if kv.1 = k then (k, v) :: assocErase rest k
    else kv :: paramsSet rest k v

/-- The query merge performed by `setupOutgoing` (common.ts lines
107-109): every entry of the target's `searchParams` is `set` into the
request's parsed query, in the target's iteration order. -/
def mergeParams (reqParams tgtParams : List (String × String)) : List (String × String) :=
  tgtParams.foldl (fun acc kv => paramsSet acc kv.1 kv.2) reqParams

/-- Splits a raw query string on `&`, keeping empty segments for the
caller to drop (mirrors `URLSearchParams` parsing). -/
def splitOnChar (sep : Char) : List Char → List (List Char)
  | [] => [[]]
  | c :: rest =>
    let r := splitOnChar sep rest
    if c = sep then [] :: r
    else
      match r with
      | [] => [[c]]
      | h :: t => (c :: h) :: t

/-- `URLSearchParams` parsing of a raw query string (without the `?`):
split on `&`, drop empty segments, key is the part before the first
`=`, value the rest.  Percent-decoding is out of model scope. -/
def parseQuery (s : String) : List (String × String) :=
  ((splitOnChar '&' s.data).filter (fun seg => seg ≠ [])).map fun seg =>
    let k := seg.takeWhile (fun c => c ≠ '=')
    match seg.dropWhile (fun c => c ≠ '=') with
    | [] => (String.mk k, "")
    | _ :: rest => (String.mk k, String.mk rest)

/-- `URLSearchParams` serialization, without percent-encoding. -/
def serializeQuery (m : List (String × String)) : String :=
  String.intercalate "&" (m.map fun kv => kv.1 ++ "=" ++ kv.2)

/-- `url.search`: empty when there are no parameters, otherwise the
serialized parameters with a leading `?`. -/
def searchOf (m : List (String × String)) : String :=
  if m.isEmpty then "" else "?" ++ serializeQuery m

/-- Pathname of `new URL(req.url, base)` for an origin-form request
URL: everything before the first `?`. -/
def urlPathname (u : String) : String :=
  String.mk (u.data.takeWhile (fun c => c ≠ '?'))

/-- Raw query of `new URL(req.url, base)`: everything after the first
`?` (later `?` characters belong to the query). -/
def urlQueryRaw (u : String) : String :=
  match u.data.dropWhile (fun c => c ≠ '?') with
  | [] => ""
  | _ :: rest => String.mk rest

/-- Character-level worker for `.replace(/\/+/g, '/')`: the flag
records whether the previous emitted character was a slash. -/
def collapseAux : Bool → List Char → List Char
  | _, [] => []
  | prevSlash, c :: rest =>
    if c = '/' then
      if prevSlash then collapseAux true rest
      else '/' :: collapseAux true rest
    else c :: collapseAux false rest

/-- `.replace(/\/+/g, '/')`: collapse every run of slashes to one. -/
def collapseSlashes (s : String) : String :=
  String.mk (collapseAux false s.data)

/-- `[a, b].filter(Boolean).join('/')`: drop empty strings, join the
survivors with a single slash. -/
def joinNonEmpty (a b : String) : String :=
  if a = "" then b else if b = "" then a else a ++ "/" ++ b

/-- The regex `isSSL = /^https|wss/` of common.ts line 13 matches `wss`
at any position (the alternation binds weaker than the anchor); this
scans for the literal substring `wss`. -/
def hasWss : List Char → Bool
  | 'w' :: 's' :: 's' :: _ => true
  | _ :: rest => hasWss rest
  | [] => false

/-- `isSSL.test(s)` for the regex `/^https|wss/` (no `i` flag): either
the string starts with `https`, or it contains `wss` anywhere, both
case-sensitively. -/
def isSSLTest (s : String) : Bool :=
  s.data.take 5 = ['h', 't', 't', 'p', 's'] || hasWss s.data

/-- Models the `requires-port` npm dependency: whether `port` must be
spelled out for `protocol` (it is not that scheme's default).  The
scheme is the part of `protocol` before the first `:`; a zero port is
never required. -/
def requiresPort (port : Nat) (protocol : String) : Bool :=
  let proto := String.mk (protocol.data.takeWhile (fun c => c ≠ ':'))
  if port = 0 then false
  else if proto = "http" ∨ proto = "ws" then port ≠ 80
  else if proto = "https" ∨ proto = "wss" then port ≠ 443
  else if proto = "ftp" then port ≠ 21
  else if proto = "gopher" then port ≠ 70
  else if proto = "file" then false
  else true

/-- `hasPort` of common.ts line 270: `!!~host.indexOf(':')`. -/
def hasPortStr (host : String) : Bool :=
  host.data.any (fun c => c = ':')

/-- Tail of the `upgradeHeader` regex `/(^|,)\s*upgrade\s*($|,)/i`
after the `(^|,)` anchor: optional whitespace, the word `upgrade`
case-insensitively, optional whitespace, then end of string or a
comma. -/
def upgradeTail (l : List Char) : Bool :=
  let l1 := l.dropWhile isJsSpace
  if (l1.take 7).map Char.toLower = ['u', 'p', 'g', 'r', 'a', 'd', 'e'] then
    let l2 := (l1.drop 7).dropWhile isJsSpace
    match l2 with
    | [] => true
    | c :: _ => c = ','
  else false

/-- Scans for an `upgrade` token that starts right after some comma. -/
def upgradeScan : List Char → Bool
  | [] => false
  | c :: rest => (c = ',' && upgradeTail rest) || upgradeScan rest

/-- `upgradeHeader.test(s)` for `/(^|,)\s*upgrade\s*($|,)/i` of
common.ts line 8: the token may start at the beginning of the string
or after any comma. -/
def upgradeHeaderTest (s : String) : Bool :=
  upgradeTail s.data || upgradeScan s.data

/-- The URL-like target objects accepted by `setupOutgoing`.  `port` is
a `Nat` (the source receives it as a digit string or number and only
compares or concatenates it); every other field is a string when
present. -/
structure Target where
  protocol : Option String
  host : Option String
  hostname : Option String
  port : Option Nat
  pathname : Option String
  path : Option String
  searchParams : Option (List (String × String))
  socketPath : Option String
  pfx : Option String
  key : Option String
  passphrase : Option String
  cert : Option String
  ca : Option String
  ciphers : Option String
  secureProtocol : Option String
  servername : Option String
  deriving Repr, DecidableEq

/-- A target with every field absent, for building concrete examples. -/
def emptyTarget : Target :=
  ⟨none, none, none, none, none, none, none, none, none, none, none, none, none, none, none, none⟩

/-- The `followRedirects` sub-configuration copied verbatim onto the
descriptor (common.ts lines 89-95); the opaque handles (`agents`, the
`beforeRedirect` hook) are modelled as string tokens. -/
structure FollowRedirectsOptions where
  maxRedirects : Option Nat
  maxBodyLength : Option Nat
  agents : Option String
  beforeRedirect : Option String
  trackRedirects : Option Bool
  deriving Repr, DecidableEq

/-- The recognized proxy-wide options (`Server.ServerOptions` as read
by `setupOutgoing`).  `agent` records the truthiness of the configured
agent; `prependPath` keeps the `undefined`/`true`/`false` distinction
because the source tests `!== false`. -/
structure ServerOptions where
  target : Option Target
  forward : Option Target
  changeOrigin : Bool
  prependPath : Option Bool
  ignorePath : Bool
  toProxy : Bool
  headers : Option (List (String × String))
  auth : Option String
  secure : Option Bool
  agent : Bool
  ca : Option String
  method : Option String
  localAddress : Option String
  followRedirects : Option FollowRedirectsOptions
  deriving Repr, DecidableEq

/-- Options with every field absent or falsy. -/
def emptyOptions : ServerOptions :=
  ⟨none, none, false, none, false, false, none, none, none, false, none, none, none, none⟩

/-- The parts of `IncomingMessage` that `setupOutgoing` reads. -/
structure IncomingMessage where
  url : String
  method : String
  headers : List (String × String)
  deriving Repr, DecidableEq

/-- The outgoing request descriptor assembled by `setupOutgoing`. -/
structure OutgoingOptions where
  port : Nat
  host : Option String
  hostname : Option String
  socketPath : Option String
  pfx : Option String
  key : Option String
  passphrase : Option String
  cert : Option String
  ca : Option String
  ciphers : Option String
  secureProtocol : Option String
  servername : Option String
  method : String
  headers : List (String × String)
  auth : Option String
  rejectUnauthorized : Option Bool
  agent : Bool
  localAddress : Option String
  maxRedirects : Option Nat
  maxBodyLength : Option Nat
  agents : Option String
  beforeRedirect : Option String
  trackRedirects : Option Bool
  path : String
  deriving Repr, DecidableEq

/-- The `TypeError`s `setupOutgoing` can raise: dereferencing an absent
target (common.ts line 44), `required(port, undefined)` splitting a
missing protocol, and `hasPort(undefined)` indexing a missing host
(both on common.ts line 125). -/
inductive ProxyError where
  | missingTarget
  | requiredOnMissingProtocol
  | hasPortOnMissingHost
  deriving Repr, DecidableEq

/-- Boolean success test for `Except`. -/
def isOkB {ε α : Type} : Except ε α → Bool
  | Except.ok _ => true
  | Except.error _ => false

/-- The in-place target normalization of common.ts lines 33-42: ensure
a `searchParams` container exists and migrate a truthy legacy `path`
field into `pathname` (deleting `path`); a falsy `path` (empty string)
is left alone. -/
def normalizeTarget (t : Target) : Target :=
  let t1 : Target :=
    match t.searchParams with
    | none => { t with searchParams := some [] }
    | some _ => t
  match t1.path with
  | some p => if p = "" then t1 else { t1 with pathname := some p, path := none }
  | none => t1

/-- Headers before the agent/connection handling: a copy of the request
headers with `options.headers` assigned on top (common.ts lines
54-58). -/
def buildBaseHeaders (options : ServerOptions) (req : IncomingMessage) :
    List (String × String) :=
  assignAll req.headers (options.headers.getD [])

/-- The no-agent connection forcing of common.ts lines 78-83: with a
falsy agent, the `connection` header is forced to `close` unless it is
already a string passing the `upgradeHeader` regex. -/
def applyConnectionClose (agent : Bool) (headers : List (String × String)) :
    List (String × String) :=
  if agent then headers
  else
    match assocGet headers "connection" with
    | some c => if upgradeHeaderTest c then headers else assocSet headers "connection" "close"
    | none => assocSet headers "connection" "close"

/-- The `changeOrigin` host-header rewrite of common.ts lines 124-126:
`required(outgoing.port, target.protocol) && !hasPort(outgoing.host)`
decides whether `:port` is appended to the target host.  A missing
protocol or (when the port is required) a missing host raises a
`TypeError`; with the port not required and no host the source stores
`undefined` in the header, which this model renders as an absent
key. -/
def changeOriginHost (options : ServerOptions) (target : Target) (port : Nat)
    (headers : List (String × String)) : Except ProxyError (List (String × String)) :=
  if options.changeOrigin then
    match target.protocol with
    | none => Except.error ProxyError.requiredOnMissingProtocol
    | some proto =>
      if requiresPort port proto then
        match target.host with
        | none => Except.error ProxyError.hasPortOnMissingHost
        | some h =>
          Except.ok (assocSet headers "host"
            (if hasPortStr h then h else h ++ ":" ++ toString port))
      else
        match target.host with
        | some h => Except.ok (assocSet headers "host" h)
        | none => Except.ok (assocErase headers "host")
  else Except.ok headers

/-- The path composition of common.ts lines 97-122: target pathname
(unless `prependPath === false`), request pathname (raw URL under
`toProxy`, nothing under `ignorePath`), joined, slash-collapsed, with
the merged query appended. -/
def computePath (options : ServerOptions) (target : Target) (req : IncomingMessage) :
    String :=
  let targetPath := if options.prependPath ≠ some false then target.pathname.getD "" else ""
  let merged := mergeParams (parseQuery (urlQueryRaw req.url)) (target.searchParams.getD [])
  let params := searchOf merged
  let p0 := if options.toProxy then req.url else urlPathname req.url
  let p1 := if options.ignorePath then "" else p0
  collapseSlashes (joinNonEmpty targetPath p1) ++ params

/-- `if (options.ca) outgoing.ca = options.ca` (common.ts line 65) on
top of the verbatim target copy of line 49. -/
def caField (options : ServerOptions) (target : Target) : Option String :=
  match options.ca with
  | some c => if c = "" then target.ca else some c
  | none => target.ca

/-- `options.method || req.method` (common.ts line 53). -/
def methodField (options : ServerOptions) (req : IncomingMessage) : String :=
  match options.method with
  | some m => if m = "" then req.method else m
  | none => req.method

/-- `if (options.auth) outgoing.auth = options.auth` (common.ts line
60). -/
def authField (options : ServerOptions) : Option String :=
  match options.auth with
  | some a => if a = "" then none else some a
  | none => none

/-- `isSSL.test(target.protocol)` on a (normalized) target object; a
missing protocol is coerced by the regex test to a non-matching
string. -/
def sslOf (target : Target) : Bool :=
  isSSLTest (target.protocol.getD "")

/-- `target.port || (sslEnabled ? 443 : 80)` (common.ts line 46) on a
(normalized) target object. -/
def portOf (target : Target) : Nat :=
  target.port.getD (if sslOf target then 443 else 80)

/-- The outgoing descriptor assembled from a normalized target, the
options, the request and the final header map (common.ts lines
46-122). -/
def mkOutgoing (options : ServerOptions) (req : IncomingMessage) (target : Target)
    (finalHeaders : List (String × String)) : OutgoingOptions :=
  { port := portOf target
    host := target.host
    hostname := target.hostname
    socketPath := target.socketPath
    pfx := target.pfx
    key := target.key
    passphrase := target.passphrase
    cert := target.cert
    ca := caField options target
    ciphers := target.ciphers
    secureProtocol := target.secureProtocol
    servername := target.servername
    method := methodField options req
    headers := finalHeaders
    auth := authField options
    rejectUnauthorized := if sslOf target then some (options.secure.getD true) else none
    agent := options.agent
    localAddress := options.localAddress
    maxRedirects := options.followRedirects.bind (fun fr => fr.maxRedirects)
    maxBodyLength := options.followRedirects.bind (fun fr => fr.maxBodyLength)
    agents := options.followRedirects.bind (fun fr => fr.agents)
    beforeRedirect := options.followRedirects.bind (fun fr => fr.beforeRedirect)
    trackRedirects := options.followRedirects.bind (fun fr => fr.trackRedirects)
    path := computePath options target req }

/-- `setupOutgoing` once a target object has been selected: normalize
it in place, then build the descriptor; only the `changeOrigin` step
can raise. -/
def setupOutgoingSome (options : ServerOptions) (req : IncomingMessage) (t0 : Target) :
    Except ProxyError (OutgoingOptions × Target) :=
  (changeOriginHost options (normalizeTarget t0) (portOf (normalizeTarget t0))
      (applyConnectionClose options.agent (buildBaseHeaders options req))).map
    (fun finalHeaders =>
      (mkOutgoing options req (normalizeTarget t0) finalHeaders, normalizeTarget t0))

/-- `setupOutgoing` of common.ts lines 29-129.  The selected target is
`options.forward` when `fwd` is set, else `options.target`; the result
pairs the outgoing descriptor with the post-call state of the shared
target object (which the source mutates in place). -/
def setupOutgoing (options : ServerOptions) (req : IncomingMessage) (fwd : Bool) :
    Except ProxyError (OutgoingOptions × Target) :=
  match (if fwd then options.forward else options.target) with
  | none => Except.error ProxyError.missingTarget
  | some t0 => setupOutgoingSome options req t0

/-- The parts of a request or socket that `hasEncryptedConnection`
inspects: the truthiness of the `encrypted` and legacy `pair` flags. -/
structure ConnLike where
  encrypted : Bool
  pair : Bool
  deriving Repr, DecidableEq

/-- A value carrying optional `connection` and `socket` objects, as
dereferenced (with optional chaining) by `hasEncryptedConnection`. -/
structure ConnCarrier where
  connection : Option ConnLike
  socket : Option ConnLike
  deriving Repr, DecidableEq

/-- `hasEncryptedConnection` of common.ts lines 180-183, with the
source's evaluation order of the four optional-chained reads. -/
def hasEncryptedConnection (req : ConnCarrier) : Bool :=
  (req.connection.map (fun c => c.encrypted)).getD false
    || (req.socket.map (fun c => c.encrypted)).getD false
    || (req.connection.map (fun c => c.pair)).getD false
    || (req.socket.map (fun c => c.pair)).getD false

/-- A cookie rewrite map: exact previous values (or the wildcard `*`)
to replacement values, `none` meaning the JS `null` that deletes the
attribute. -/
def CookieMap : Type := List (String × Option String)

/-- Own-key membership of a plain-object rewrite map. -/
def cfgHasOwn : CookieMap → String → Bool
  | [], _ => false
  | kv :: rest, k => kv.1 = k || cfgHasOwn rest k

/-- Own-key read of a plain-object rewrite map (`none` is the JS
`null`). -/
def cfgGetOwn : CookieMap → String → Option String
  | [], _ => none
  | kv :: rest, k => if kv.1 = k then kv.2 else cfgGetOwn rest k

/-- The member names of `Object.prototype` in Node, which the `in`
operator and property reads on a plain-object rewrite map reach
through the prototype chain. -/
def objectProtoKeys : List String :=
  ["constructor", "hasOwnProperty", "isPrototypeOf", "propertyIsEnumerable",
   "toLocaleString", "toString", "valueOf", "__defineGetter__", "__defineSetter__",
   "__lookupGetter__", "__lookupSetter__", "__proto__"]

/-- What `config[k]` observably yields for an inherited
`Object.prototype` member, as used by the replacement closure (a
truthiness test, then string concatenation): Node/V8 prints the
function members as `function NAME() \x7b [native code] \x7d` (with
`constructor` being the `Object` function) and the `__proto__`
accessor's object value as `[object Object]`.  All are truthy. -/
def protoMemberString (k : String) : String :=
  if k = "__proto__" then "[object Object]"
  else if k = "constructor" then "function Object() \x7b [native code] \x7d"
  else "function " ++ k ++ "() \x7b [native code] \x7d"

/-- JS `k in config` for a plain-object rewrite map: own keys, or the
members inherited from `Object.prototype`. -/
def cfgHas (cfg : CookieMap) (k : String) : Bool :=
  cfgHasOwn cfg k || objectProtoKeys.contains k

/-- JS `config[k]` for a plain-object rewrite map: the own value when
`k` is an own key, else the inherited `Object.prototype` member
(rendered as the string it contributes when concatenated). -/
def cfgGet (cfg : CookieMap) (k : String) : Option String :=
  if cfgHasOwn cfg k then cfgGetOwn cfg k
  else if objectProtoKeys.contains k then some (protoMemberString k)
  else none

/-- The replacement closure of `rewriteCookieProperty` (common.ts lines
200-217) applied to the two capture groups: `previousValue in config`
first (the `in` operator also matching inherited `Object.prototype`
members), then the `*` fallback, substitution for a truthy value,
clause deletion for a falsy one, and the untouched match when neither
test passes. -/
def applyRewrite (cfg : CookieMap) (g1 g2 : List Char) : List Char :=
  if cfgHas cfg (String.mk g2) then
    match cfgGet cfg (String.mk g2) with
    | some s => if s = "" then [] else g1 ++ s.data
    | none => []
  else if cfgHas cfg "*" then
    match cfgGet cfg "*" with
    | some s => if s = "" then [] else g1 ++ s.data
    | none => []
  else g1 ++ g2

/-- Continuation of a clause match after the attribute name: expects a
literal `=` and then the greedy non-empty value run `[^;]+`.  `ws` and
`nameChars` are the already-matched whitespace and name characters that
make up the first capture group. -/
def tryMatchValue (ws nameChars : List Char) : List Char → Option (List Char × List Char × List Char)
  | [] => none
  | e :: r2 =>
    if e = '=' then
      let v := r2.takeWhile (fun ch => ch ≠ ';')
      let r3 := r2.dropWhile (fun ch => ch ≠ ';')
      if v = [] then none
      else some (';' :: (ws ++ nameChars ++ ['=']), v, r3)
    else none

/-- One attempt of the regex `(;\s*NAME=)([^;]+)` (with the `i` flag)
at the current position: on success returns the first capture group
(`; <ws>NAME=` as it appears), the second (the value, one or more
non-`;` characters, greedy), and the rest of the input.  `pname` is the
attribute name in lower case. -/
def tryMatchClause (pname : List Char) : List Char → Option (List Char × List Char × List Char)
  | [] => none
  | c :: rest =>
    if c = ';' then
      let ws := rest.takeWhile isJsSpace
      let r1 := rest.dropWhile isJsSpace
      let nameChars := r1.take pname.length
      if nameChars.map Char.toLower = pname then
        tryMatchValue ws nameChars (r1.drop pname.length)
      else none
    else none

/-- `String.prototype.replace` with a non-global regex: scan left to
right, rewrite the first match with the replacement closure, copy the
rest verbatim. -/
def rewriteScan (cfg : CookieMap) (pname : List Char) : List Char → List Char
  | [] => []
  | c :: rest =>
    match tryMatchClause pname (c :: rest) with
    | some (g1, g2, after) => applyRewrite cfg g1 g2 ++ after
    | none => c :: rewriteScan cfg pname rest

/-- `rewriteCookieProperty` of common.ts lines 193-218 on a single
header string (the array overload maps this element-wise). -/
def rewriteCookieProperty (header : String) (cfg : CookieMap) (property : String) : String :=
  String.mk (rewriteScan cfg (property.data.map Char.toLower) header.data)

/-- Specification-side locator for the first `; name=value` clause: the
text before the match, the two capture groups, and the text after. -/
def findClause (pname : List Char) :
    List Char → Option (List Char × List Char × List Char × List Char)
  | [] => none
  | c :: rest =>
    match tryMatchClause pname (c :: rest) with
    | some (g1, g2, after) => some ([], g1, g2, after)
    | none =>
      match findClause pname rest with
      | some (before, g1, g2, after) => some (c :: before, g1, g2, after)
      | none => none

/-! ## Basic lemmas about the embedding -/

/-- `Except.map` hits `ok` exactly when the argument was `ok`. -/
theorem except_map_eq_ok {ε α β : Type} {e : Except ε α} {f : α → β} {b : β} :
    e.map f = Except.ok b ↔ ∃ a, e = Except.ok a ∧ f a = b := by
  cases e <;> simp [Except.map]

/-- Closed form of the in-place target normalization. -/
theorem normalizeTarget_eq (t : Target) :
    normalizeTarget t =
      { t with
        searchParams := some (t.searchParams.getD [])
        pathname :=
          match t.path with
          | some p => if p = "" then t.pathname else some p
          | none => t.pathname
        path :=
          match t.path with
          | some p => if p = "" then some p else none
          | none => none } := by
  obtain ⟨pr, ho, hn, po, pa, pth, sp, so, pf, ke, ps, ce, cc, ci, se, sv⟩ := t
  unfold normalizeTarget
  cases sp <;> cases pth <;> simp
  case none.some p => by_cases hpe : p = "" <;> simp [hpe]
  case some.some s p => by_cases hpe : p = "" <;> simp [hpe]

theorem normalizeTarget_protocol (t : Target) :
    (normalizeTarget t).protocol = t.protocol := by
  rw [normalizeTarget_eq]

theorem normalizeTarget_host (t : Target) : (normalizeTarget t).host = t.host := by
  rw [normalizeTarget_eq]

theorem normalizeTarget_port (t : Target) : (normalizeTarget t).port = t.port := by
  rw [normalizeTarget_eq]

theorem normalizeTarget_searchParams (t : Target) :
    (normalizeTarget t).searchParams = some (t.searchParams.getD []) := by
  rw [normalizeTarget_eq]

/-- Unpacking a successful `setupOutgoing` run into its selected
target, the `changeOrigin` result, and the assembled descriptor. -/
theorem setupOutgoing_ok_elim {options : ServerOptions} {req : IncomingMessage}
    {fwd : Bool} {out : OutgoingOptions} {t2 : Target}
    (hok : setupOutgoing options req fwd = Except.ok (out, t2)) :
    ∃ t0, (if fwd then options.forward else options.target) = some t0 ∧
      ∃ fh, changeOriginHost options (normalizeTarget t0) (portOf (normalizeTarget t0))
              (applyConnectionClose options.agent (buildBaseHeaders options req))
            = Except.ok fh ∧
        out = mkOutgoing options req (normalizeTarget t0) fh ∧
        t2 = normalizeTarget t0 := by
  unfold setupOutgoing at hok
  cases hsel : (if fwd then options.forward else options.target) with
  | none => rw [hsel] at hok; exact absurd hok (by simp)
  | some t0 =>
    rw [hsel] at hok
    unfold setupOutgoingSome at hok
    rw [except_map_eq_ok] at hok
    obtain ⟨fh, hch, heq⟩ := hok
    injection heq with h1 h2
    exact ⟨t0, rfl, fh, hch, h1.symm, h2.symm⟩

/-- Success-shaped values of `Except`, usable from concrete
computations. -/
theorem exists_ok_of_isOkB {ε α : Type} (e : Except ε α) (h : isOkB e = true) :
    ∃ a, e = Except.ok a := by
  cases e with
  | ok a => exact ⟨a, rfl⟩
  | error e => simp [isOkB] at h

/-- `Except.map` preserves success. -/
theorem isOkB_map {ε α β : Type} (f : α → β) (e : Except ε α) :
    isOkB (e.map f) = isOkB e := by
  cases e <;> rfl

/-! ## Association-list lemmas -/

/-- The keys of a parameter list, in order. -/
def keysOf (m : List (String × String)) : List String := m.map Prod.fst

theorem keysOf_nil : keysOf [] = [] := rfl

theorem keysOf_cons (a : String × String) (m : List (String × String)) :
    keysOf (a :: m) = a.1 :: keysOf m := rfl

theorem assocGet_assocSet_self (m : List (String × String)) (k v : String) :
    assocGet (assocSet m k v) k = some v := by
  induction m with
  | nil => simp [assocSet, assocGet]
  | cons a rest ih =>
    by_cases ha : a.1 = k <;> simp [assocSet, assocGet, ha, ih]

theorem assocGet_assocSet_ne (m : List (String × String)) (k v k' : String)
    (h : k' ≠ k) : assocGet (assocSet m k v) k' = assocGet m k' := by
  induction m with
  | nil => simp [assocSet, assocGet, Ne.symm h]
  | cons a rest ih =>
    by_cases ha : a.1 = k
    · simp [assocSet, assocGet, ha, Ne.symm h]
    · simp [assocSet, assocGet, ha, ih]

theorem assocGet_assocErase_self (m : List (String × String)) (k : String) :
    assocGet (assocErase m k) k = none := by
  induction m with
  | nil => simp [assocErase, assocGet]
  | cons a rest ih =>
    by_cases ha : a.1 = k <;> simp [assocErase, assocGet, ha, ih]

theorem assocGet_assocErase_ne (m : List (String × String)) (k k' : String)
    (h : k' ≠ k) : assocGet (assocErase m k) k' = assocGet m k' := by
  induction m with
  | nil => simp [assocErase]
  | cons a rest ih =>
    by_cases ha : a.1 = k
    · simp [assocErase, assocGet, ha, Ne.symm h, ih]
    · by_cases ha' : a.1 = k' <;> simp [assocErase, assocGet, ha, ha', h, ih]

theorem assocErase_of_not_mem (m : List (String × String)) (k : String)
    (h : k ∉ keysOf m) : assocErase m k = m := by
  induction m with
  | nil => rfl
  | cons a rest ih =>
    rw [keysOf_cons] at h
    simp only [List.mem_cons, not_or] at h
    have ha : ¬(a.1 = k) := fun he => h.1 he.symm
    simp [assocErase, ha, ih h.2]

theorem assocGet_paramsSet_self (m : List (String × String)) (k v : String) :
    assocGet (paramsSet m k v) k = some v := by
  induction m with
  | nil => simp [paramsSet, assocGet]
  | cons a rest ih =>
    by_cases ha : a.1 = k <;> simp [paramsSet, assocGet, ha, ih]

theorem assocGet_paramsSet_ne (m : List (String × String)) (k v k' : String)
    (h : k' ≠ k) : assocGet (paramsSet m k v) k' = assocGet m k' := by
  induction m with
  | nil => simp [paramsSet, assocGet, Ne.symm h]
  | cons a rest ih =>
    by_cases ha : a.1 = k
    · simp [paramsSet, assocGet, ha, Ne.symm h, assocGet_assocErase_ne rest k k' h]
    · simp [paramsSet, assocGet, ha, ih]

theorem keysOf_paramsSet_mem (m : List (String × String)) (k v : String)
    (h : k ∈ keysOf m) (hn : (keysOf m).Nodup) :
    keysOf (paramsSet m k v) = keysOf m := by
  induction m with
  | nil => simp [keysOf] at h
  | cons a rest ih =>
    rw [keysOf_cons] at h hn
    by_cases ha : a.1 = k
    · have hnotin : k ∉ keysOf rest := fun hc => (List.nodup_cons.mp hn).1 (ha ▸ hc)
      simp [paramsSet, ha, keysOf_cons, assocErase_of_not_mem rest k hnotin]
    · have hmem : k ∈ keysOf rest := by
        rcases List.mem_cons.mp h with hc | hc
        · exact absurd hc.symm ha
        · exact hc
      have hnr := (List.nodup_cons.mp hn).2
      simp only [paramsSet, if_neg ha, keysOf_cons, ih hmem hnr]

theorem keysOf_paramsSet_not_mem (m : List (String × String)) (k v : String)
    (h : k ∉ keysOf m) : keysOf (paramsSet m k v) = keysOf m ++ [k] := by
  induction m with
  | nil => simp [paramsSet, keysOf]
  | cons a rest ih =>
    rw [keysOf_cons] at h
    simp only [List.mem_cons, not_or] at h
    have ha : ¬(a.1 = k) := fun he => h.1 he.symm
    simp only [paramsSet, if_neg ha, keysOf_cons, ih h.2, List.cons_append]

theorem nodup_keysOf_paramsSet (m : List (String × String)) (k v : String)
    (hn : (keysOf m).Nodup) : (keysOf (paramsSet m k v)).Nodup := by
  by_cases h : k ∈ keysOf m
  · rw [keysOf_paramsSet_mem m k v h hn]; exact hn
  · rw [keysOf_paramsSet_not_mem m k v h]
    have hdj : List.Disjoint (keysOf m) [k] := by
      intro a ha1 ha2
      rw [List.mem_singleton] at ha2
      exact h (ha2 ▸ ha1)
    exact hn.append (List.nodup_singleton k) hdj

/-! ## Lemmas about the query merge -/

theorem mergeParams_nil (R : List (String × String)) : mergeParams R [] = R := rfl

theorem mergeParams_cons (R : List (String × String)) (kv : String × String)
    (T : List (String × String)) :
    mergeParams R (kv :: T) = mergeParams (paramsSet R kv.1 kv.2) T := rfl

theorem assocGet_mergeParams_not_mem (T : List (String × String)) :
    ∀ R k, k ∉ keysOf T → assocGet (mergeParams R T) k = assocGet R k := by
  induction T with
  | nil => intro R k _; rfl
  | cons kv T ih =>
    intro R k hk
    rw [keysOf_cons] at hk
    simp only [List.mem_cons, not_or] at hk
    rw [mergeParams_cons, ih (paramsSet R kv.1 kv.2) k hk.2,
      assocGet_paramsSet_ne R kv.1 kv.2 k hk.1]

theorem assocGet_mergeParams_mem (T : List (String × String)) :
    ∀ R k v, (keysOf T).Nodup → (k, v) ∈ T →
      assocGet (mergeParams R T) k = some v := by
  induction T with
  | nil => intro R k v _ hm; simp at hm
  | cons kv T ih =>
    intro R k v hn hm
    rw [keysOf_cons] at hn
    rcases List.mem_cons.mp hm with hc | hc
    · have hk : k = kv.1 := congrArg Prod.fst hc
      have hv : v = kv.2 := congrArg Prod.snd hc
      subst hk
      subst hv
      have hnotin : kv.1 ∉ keysOf T := (List.nodup_cons.mp hn).1
      rw [mergeParams_cons, assocGet_mergeParams_not_mem T _ kv.1 hnotin,
        assocGet_paramsSet_self]
    · exact ih (paramsSet R kv.1 kv.2) k v (List.nodup_cons.mp hn).2 hc

theorem keysOf_mergeParams (T : List (String × String)) :
    ∀ R, (keysOf R).Nodup → (keysOf T).Nodup →
      keysOf (mergeParams R T)
        = keysOf R ++ (keysOf T).filter (fun k => k ∉ keysOf R) := by
  induction T with
  | nil => intro R _ _; simp [mergeParams_nil, keysOf_nil]
  | cons kv T ih =>
    intro R hR hT
    rw [keysOf_cons] at hT
    obtain ⟨hk0, hT'⟩ := List.nodup_cons.mp hT
    rw [mergeParams_cons, keysOf_cons]
    by_cases hmem : kv.1 ∈ keysOf R
    · rw [ih (paramsSet R kv.1 kv.2) (nodup_keysOf_paramsSet R kv.1 kv.2 hR) hT',
        keysOf_paramsSet_mem R kv.1 kv.2 hmem hR]
      simp [List.filter_cons, hmem]
    · rw [ih (paramsSet R kv.1 kv.2) (nodup_keysOf_paramsSet R kv.1 kv.2 hR) hT',
        keysOf_paramsSet_not_mem R kv.1 kv.2 hmem]
      have hfeq : (keysOf T).filter (fun k => k ∉ keysOf R ++ [kv.1])
          = (keysOf T).filter (fun k => k ∉ keysOf R) := by
        apply List.filter_congr
        intro a ha
        have hne : ¬(a = kv.1) := fun he => hk0 (he ▸ ha)
        simp [hne]
      rw [hfeq]
      simp [List.filter_cons, hmem, List.append_assoc]

/-! ## Lemmas about the header steps -/

/-- The `changeOrigin` step only ever touches the `host` header. -/
theorem changeOriginHost_ok_get_ne (options : ServerOptions) (target : Target)
    (port : Nat) (headers fh : List (String × String)) (k : String)
    (hk : k ≠ "host")
    (h : changeOriginHost options target port headers = Except.ok fh) :
    assocGet fh k = assocGet headers k := by
  unfold changeOriginHost at h
  split at h
  · split at h
    · exact Except.noConfusion h
    · split at h
      · split at h
        · exact Except.noConfusion h
        · injection h with h
          rw [← h, assocGet_assocSet_ne headers "host" _ k hk]
      · split at h
        · injection h with h
          rw [← h, assocGet_assocSet_ne headers "host" _ k hk]
        · injection h with h
          rw [← h, assocGet_assocErase_ne headers "host" k hk]
  · injection h with h
    rw [h]

/-- The value the no-agent step leaves in the `connection` header. -/
def forcedConnection (headers : List (String × String)) : String :=
  match assocGet headers "connection" with
  | some c => if upgradeHeaderTest c then c else "close"
  | none => "close"

theorem assocGet_applyConnectionClose_false (headers : List (String × String)) :
    assocGet (applyConnectionClose false headers) "connection"
      = some (forcedConnection headers) := by
  unfold applyConnectionClose forcedConnection
  simp only [Bool.false_eq_true, if_false]
  cases hc : assocGet headers "connection" with
  | none => simp [assocGet_assocSet_self]
  | some c =>
    by_cases hu : upgradeHeaderTest c = true <;> simp [hu, hc, assocGet_assocSet_self]

/-! ## Congruence lemmas used for the `prependPath` claim -/

theorem sslOf_congr (t1 t2 : Target) (hp : t1.protocol = t2.protocol) :
    sslOf t1 = sslOf t2 := by
  simp [sslOf, hp]

theorem portOf_congr (t1 t2 : Target) (hp : t1.protocol = t2.protocol)
    (hpo : t1.port = t2.port) : portOf t1 = portOf t2 := by
  simp [portOf, sslOf, hp, hpo]

theorem changeOriginHost_congr (options : ServerOptions) (t1 t2 : Target) (port : Nat)
    (headers : List (String × String)) (hp : t1.protocol = t2.protocol)
    (hh : t1.host = t2.host) :
    changeOriginHost options t1 port headers = changeOriginHost options t2 port headers := by
  unfold changeOriginHost
  rw [hp, hh]

theorem computePath_prependPath_false (options : ServerOptions) (t1 t2 : Target)
    (req : IncomingMessage) (hpp : options.prependPath = some false)
    (hsp : t1.searchParams = t2.searchParams) :
    computePath options t1 req = computePath options t2 req := by
  unfold computePath
  rw [hpp, hsp]
  simp

/-! ## Lemmas about the cookie rewriter -/

/-- The replace scan rewrites exactly the first clause located by
`findClause` and copies everything else verbatim. -/
theorem rewriteScan_eq (cfg : CookieMap) (pname : List Char) (l : List Char) :
    rewriteScan cfg pname l =
      (match findClause pname l with
       | none => l
       | some (before, g1, g2, after) => before ++ (applyRewrite cfg g1 g2 ++ after)) := by
  induction l with
  | nil => rfl
  | cons c rest ih =>
    unfold rewriteScan findClause
    cases htm : tryMatchClause pname (c :: rest) with
    | some g =>
      obtain ⟨g1, g2, after⟩ := g
      simp
    | none =>
      simp only []
      rw [ih]
      cases hfc : findClause pname rest with
      | none => simp
      | some q =>
        obtain ⟨b, g1, g2, a⟩ := q
        simp

/-- A successful clause match decomposes its input exactly into the
two capture groups followed by the rest. -/
theorem tryMatchClause_decomp (pname : List Char) (l g1 g2 rest : List Char)
    (h : tryMatchClause pname l = some (g1, g2, rest)) :
    l = g1 ++ g2 ++ rest := by
  cases l with
  | nil => cases h
  | cons c cs =>
    simp only [tryMatchClause] at h
    split at h
    · rename_i hc
      split at h
      · rename_i hname
        cases hdrop : (cs.dropWhile isJsSpace).drop pname.length with
        | nil => rw [hdrop] at h; exact Option.noConfusion h
        | cons e r2 =>
          rw [hdrop] at h
          simp only [tryMatchValue] at h
          split at h
          · rename_i he
            split at h
            · exact Option.noConfusion h
            · injection h with h
              injection h with h1 h23
              injection h23 with h2 h3
              subst h1
              subst h2
              subst h3
              subst hc
              subst he
              have hws : cs.takeWhile isJsSpace ++ cs.dropWhile isJsSpace = cs :=
                List.takeWhile_append_dropWhile _ _
              have htk : (cs.dropWhile isJsSpace).take pname.length
                  ++ (cs.dropWhile isJsSpace).drop pname.length
                  = cs.dropWhile isJsSpace := List.take_append_drop _ _
              have hvr : r2.takeWhile (fun ch => ch ≠ ';')
                  ++ r2.dropWhile (fun ch => ch ≠ ';') = r2 :=
                List.takeWhile_append_dropWhile _ _
              conv_lhs => rw [← hws, ← htk, hdrop]
              rw [← hvr]
              simp
          · exact Option.noConfusion h
      · exact Option.noConfusion h
    · exact Option.noConfusion h

/-- `findClause` decomposes its input into prefix, capture groups and
rest. -/
theorem findClause_decomp (pname : List Char) (l : List Char) :
    ∀ b g1 g2 a, findClause pname l = some (b, g1, g2, a) →
      l = b ++ g1 ++ g2 ++ a := by
  induction l with
  | nil => intro b g1 g2 a h; cases h
  | cons c rest ih =>
    intro b g1 g2 a h
    unfold findClause at h
    cases htm : tryMatchClause pname (c :: rest) with
    | some g =>
      obtain ⟨gg1, gg2, ga⟩ := g
      rw [htm] at h
      injection h with h
      injection h with h1 h'
      injection h' with h2 h''
      injection h'' with h3 h4
      subst h1
      subst h2
      subst h3
      subst h4
      simpa using tryMatchClause_decomp pname (c :: rest) gg1 gg2 ga htm
    | none =>
      rw [htm] at h
      cases hfc : findClause pname rest with
      | none => rw [hfc] at h; cases h
      | some q =>
        obtain ⟨b', h1, h2, ha⟩ := q
        rw [hfc] at h
        injection h with h
        injection h with hb h'
        injection h' with hg1 h''
        injection h'' with hg2 hg3
        subst hb
        subst hg1
        subst hg2
        subst hg3
        have hrest := ih b' h1 h2 ha hfc
        simp [hrest, List.cons_append, List.append_assoc]

/-! ## Concrete fixtures used by the claim theorems -/

/-- A plain GET request for `/` with no headers. -/
def rootGetRequest : IncomingMessage := ⟨"/", "GET", []⟩

/-- A target whose scheme is spelled in upper case. -/
def upperHttpsTarget : Target :=
  { emptyTarget with protocol := some "HTTPS:", host := some "h" }

/-- Options selecting the upper-case-scheme target. -/
def upperHttpsOptions : ServerOptions :=
  { emptyOptions with target := some upperHttpsTarget }

/-- A target whose scheme contains `wss` away from the start. -/
def xwssTarget : Target :=
  { emptyTarget with protocol := some "xwss:", host := some "h" }

/-- Options selecting the `xwss:` target. -/
def xwssOptions : ServerOptions :=
  { emptyOptions with target := some xwssTarget }

/-- A `wss:` target used as a witness input. -/
def wssTarget : Target :=
  { emptyTarget with protocol := some "wss:", host := some "h" }

/-- Options selecting the `wss:` target. -/
def wssOptions : ServerOptions :=
  { emptyOptions with target := some wssTarget }

/-! ## Claim C1 -/

/-- Claim C1 counterexample: the regex `/^https|wss/` carries no `i`
flag and its alternation matches `wss` anywhere in the string.  For the
scheme `HTTPS:` — which starts with `https` case-insensitively, so the
claim calls it encrypted — `setupOutgoing` picks default port 80 and
leaves `rejectUnauthorized` unset; conversely for the scheme `xwss:`,
which does not start with `wss`, it picks port 443. -/
theorem c1_cex :
    (setupOutgoing upperHttpsOptions rootGetRequest false).toOption.map
        (fun r => (r.1.port, r.1.rejectUnauthorized)) = some (80, none) ∧
    ("HTTPS:".data.map Char.toLower).take 5 = ['h', 't', 't', 'p', 's'] ∧
    (setupOutgoing xwssOptions rootGetRequest false).toOption.map
        (fun r => (r.1.port, r.1.rejectUnauthorized.isSome)) = some (443, true) ∧
    ¬ ("xwss:".data.map Char.toLower).take 3 = ['w', 's', 's'] := by
  exact ⟨rfl, by decide, rfl, by decide⟩

/-- Claim C1 (amended): for every target with a protocol string `p`,
`setupOutgoing` classifies the target as encrypted exactly when
`isSSLTest p` holds — `p` starts with `https` or contains `wss`
anywhere, both case-sensitively — and this decides the default port
(443 against 80) and whether `rejectUnauthorized` is set. -/
theorem c1_thm (options : ServerOptions) (req : IncomingMessage) (t : Target)
    (p : String) (out : OutgoingOptions) (t2 : Target)
    (htgt : options.target = some t) (hp : t.protocol = some p)
    (hok : setupOutgoing options req false = Except.ok (out, t2)) :
    out.port = t.port.getD (if isSSLTest p then 443 else 80) ∧
    out.rejectUnauthorized.isSome = isSSLTest p := by
  obtain ⟨t0, hsel, fh, hch, hout, ht2⟩ := setupOutgoing_ok_elim hok
  simp only [Bool.false_eq_true, if_false, htgt, Option.some.injEq] at hsel
  subst hsel
  subst hout
  constructor
  · simp [mkOutgoing, portOf, sslOf, normalizeTarget_protocol, normalizeTarget_port, hp]
  · simp only [mkOutgoing, sslOf, normalizeTarget_protocol, hp, Option.getD_some]
    cases hssl : isSSLTest p <;> simp [hssl]

/-- Claim C1 witness: a concrete `wss:` target gets port 443. -/
theorem c1_wit :
    (setupOutgoing wssOptions rootGetRequest false).toOption.map
        (fun r => (r.1.port, r.1.rejectUnauthorized.isSome)) = some (443, true) := by
  obtain ⟨r, hok⟩ :=
    exists_ok_of_isOkB (setupOutgoing wssOptions rootGetRequest false) (by decide)
  have h := c1_thm wssOptions rootGetRequest wssTarget "wss:" r.1 r.2 rfl rfl (by rw [hok])
  rw [hok]
  show some (r.1.port, r.1.rejectUnauthorized.isSome) = some (443, true)
  rw [h.1, h.2]
  decide

/-! ## Claim C10 -/

/-- Claim C10: `hasEncryptedConnection` is total (a Lean function) and
returns `true` exactly when the attached `connection` or `socket`
object carries a truthy `encrypted` or legacy `pair` flag; with
neither object present it returns `false`. -/
theorem c10_thm (req : ConnCarrier) :
    (hasEncryptedConnection req = true ↔
      (∃ c, req.connection = some c ∧ (c.encrypted = true ∨ c.pair = true)) ∨
      (∃ c, req.socket = some c ∧ (c.encrypted = true ∨ c.pair = true))) ∧
    hasEncryptedConnection ⟨none, none⟩ = false := by
  refine ⟨?_, rfl⟩
  cases hc : req.connection <;> cases hs : req.socket
  all_goals simp [hasEncryptedConnection, hc, hs]
  all_goals tauto

/-! ## Claim C5 -/

/-- A target carrying a scheme and a non-default port but no host. -/
def hostlessTarget : Target :=
  { emptyTarget with protocol := some "http:", port := some 8080 }

/-- `changeOrigin` options selecting the host-less target. -/
def hostlessOptions : ServerOptions :=
  { emptyOptions with target := some hostlessTarget, changeOrigin := true }

/-- The host-less target with a host added, as a witness input. -/
def hostedTarget : Target :=
  { emptyTarget with protocol := some "http:", host := some "example", port := some 8080 }

/-- `changeOrigin` options selecting the hosted target. -/
def hostedOptions : ServerOptions :=
  { emptyOptions with target := some hostedTarget, changeOrigin := true }

/-- Claim C5 counterexample: with a target present (so fault (b) does
not apply) and a request URL that decomposes fine (so fault (a) does
not apply), `setupOutgoing` still raises: `changeOrigin` with a
host-less target whose port is non-default reaches
`hasPort(undefined)`, a `TypeError`. -/
theorem c5_cex :
    setupOutgoing hostlessOptions rootGetRequest false
        = Except.error ProxyError.hasPortOnMissingHost ∧
    hostlessOptions.target.isSome = true := ⟨rfl, rfl⟩

/-- Claim C5 (amended): `setupOutgoing` returns normally whenever a
target is selected and, in case `changeOrigin` is set, the target has a
protocol and — when its port is non-default for that protocol — also a
host.  (The cookie rewriters are total functions and never error.) -/
theorem c5_thm (options : ServerOptions) (req : IncomingMessage) (fwd : Bool) (t : Target)
    (hsel : (if fwd then options.forward else options.target) = some t)
    (hco : options.changeOrigin = true →
      ∃ proto, t.protocol = some proto ∧
        (requiresPort (t.port.getD (if isSSLTest proto then 443 else 80)) proto = true →
          t.host.isSome = true)) :
    isOkB (setupOutgoing options req fwd) = true := by
  unfold setupOutgoing
  rw [hsel]
  unfold setupOutgoingSome
  rw [isOkB_map]
  unfold changeOriginHost
  by_cases hc : options.changeOrigin = true
  · rw [if_pos hc]
    obtain ⟨proto, hproto, hreq⟩ := hco hc
    have hport : portOf (normalizeTarget t)
        = t.port.getD (if isSSLTest proto then 443 else 80) := by
      simp [portOf, sslOf, normalizeTarget_port, normalizeTarget_protocol, hproto]
    simp only [normalizeTarget_protocol, normalizeTarget_host, hproto]
    by_cases hrp : requiresPort (portOf (normalizeTarget t)) proto = true
    · have hhs : t.host.isSome = true := hreq (by rwa [hport] at hrp)
      obtain ⟨hostv, hh⟩ := Option.isSome_iff_exists.mp hhs
      simp [hrp, hh, isOkB]
    · cases hh : t.host <;> simp [hrp, hh, isOkB]
  · rw [if_neg hc]
    rfl

/-- Claim C5 witness: the hosted `changeOrigin` target goes through. -/
theorem c5_wit : isOkB (setupOutgoing hostedOptions rootGetRequest false) = true :=
  c5_thm hostedOptions rootGetRequest false hostedTarget rfl
    (fun _ => ⟨"http:", rfl, fun _ => rfl⟩)

/-! ## Claim C7 -/

/-- A target supplying its own certificate authority material. -/
def caOverrideTarget : Target :=
  { emptyTarget with protocol := some "http:", host := some "h", ca := some "A" }

/-- Options that also supply top-level `ca` material. -/
def caOverrideOptions : ServerOptions :=
  { emptyOptions with target := some caOverrideTarget, ca := some "B" }

/-- A TLS-material target used as a witness input. -/
def tlsTarget : Target :=
  { emptyTarget with protocol := some "https:", host := some "h", pfx := some "P" }

/-- Options selecting the TLS-material target. -/
def tlsOptions : ServerOptions :=
  { emptyOptions with target := some tlsTarget }

/-- Claim C7 counterexample: the descriptor does not always carry the
target's `ca` — a truthy `options.ca` overrides it (common.ts line
65). -/
theorem c7_cex :
    (setupOutgoing caOverrideOptions rootGetRequest false).toOption.map
        (fun r => r.1.ca) = some (some "B") ∧
    caOverrideTarget.ca = some "A" ∧
    ¬ ((some "B" : Option String) = some "A") := ⟨rfl, rfl, by decide⟩

/-- Claim C7 (amended): after `setupOutgoing` the descriptor carries
`host`, `hostname`, `socketPath`, `pfx`, `key`, `passphrase`, `cert`,
`ciphers`, `secureProtocol` and `servername` equal to the target's
fields (absent fields staying absent), while `ca` is the target's value
only until a truthy `options.ca` overrides it. -/
theorem c7_thm (options : ServerOptions) (req : IncomingMessage) (t : Target)
    (out : OutgoingOptions) (t2 : Target)
    (htgt : options.target = some t)
    (hok : setupOutgoing options req false = Except.ok (out, t2)) :
    out.host = t.host ∧ out.hostname = t.hostname ∧ out.socketPath = t.socketPath ∧
    out.pfx = t.pfx ∧ out.key = t.key ∧ out.passphrase = t.passphrase ∧
    out.cert = t.cert ∧ out.ciphers = t.ciphers ∧
    out.secureProtocol = t.secureProtocol ∧ out.servername = t.servername ∧
    out.ca = (match options.ca with
              | some c => if c = "" then t.ca else some c
              | none => t.ca) := by
  obtain ⟨t0, hsel, fh, hch, hout, ht2⟩ := setupOutgoing_ok_elim hok
  simp only [Bool.false_eq_true, if_false, htgt, Option.some.injEq] at hsel
  subst hsel
  subst hout
  simp [mkOutgoing, normalizeTarget_eq, caField]

/-- Claim C7 witness: a concrete target's `pfx` is copied and its
absent `socketPath` stays absent. -/
theorem c7_wit :
    (setupOutgoing tlsOptions rootGetRequest false).toOption.map
        (fun r => (r.1.pfx, r.1.socketPath)) = some (some "P", none) := by
  obtain ⟨r, hok⟩ :=
    exists_ok_of_isOkB (setupOutgoing tlsOptions rootGetRequest false) (by decide)
  have h := c7_thm tlsOptions rootGetRequest tlsTarget r.1 r.2 rfl (by rw [hok])
  rw [hok]
  show some (r.1.pfx, r.1.socketPath) = some (some "P", none)
  rw [h.2.2.2.1, h.2.2.1]
  rfl

/-! ## Claim C3 -/

/-- A target using the legacy `path` field and no query container. -/
def legacyPathTarget : Target :=
  { emptyTarget with protocol := some "http:", host := some "h", path := some "/p" }

/-- Options selecting the legacy-path target. -/
def legacyPathOptions : ServerOptions :=
  { emptyOptions with target := some legacyPathTarget }

/-- Claim C3 counterexample: `setupOutgoing` mutates the configured
target object in place — after the call it has gained a `searchParams`
container and its `path` has migrated to `pathname` — so the inputs are
not left unchanged. -/
theorem c3_cex :
    (setupOutgoing legacyPathOptions rootGetRequest false).toOption.map
        (fun r => (r.2.pathname, r.2.path, r.2.searchParams))
        = some (some "/p", none, some []) ∧
    (legacyPathTarget.pathname, legacyPathTarget.path, legacyPathTarget.searchParams)
        = (none, some "/p", none) := ⟨rfl, rfl⟩

/-- Claim C3 (amended): the only shared state `setupOutgoing` writes is
the selected target, and only by the resolution step: it gains a
`searchParams` container and a truthy legacy `path` migrates into
`pathname`; every other target field is untouched.  (The cookie
rewriters and the helpers are pure Lean functions.) -/
theorem c3_thm (options : ServerOptions) (req : IncomingMessage) (t : Target)
    (out : OutgoingOptions) (t2 : Target)
    (htgt : options.target = some t)
    (hok : setupOutgoing options req false = Except.ok (out, t2)) :
    t2.protocol = t.protocol ∧ t2.host = t.host ∧ t2.hostname = t.hostname ∧
    t2.port = t.port ∧ t2.socketPath = t.socketPath ∧ t2.pfx = t.pfx ∧
    t2.key = t.key ∧ t2.passphrase = t.passphrase ∧ t2.cert = t.cert ∧
    t2.ca = t.ca ∧ t2.ciphers = t.ciphers ∧ t2.secureProtocol = t.secureProtocol ∧
    t2.servername = t.servername ∧
    t2.searchParams = some (t.searchParams.getD []) ∧
    t2.pathname = (match t.path with
                   | some p => if p = "" then t.pathname else some p
                   | none => t.pathname) ∧
    t2.path = (match t.path with
               | some p => if p = "" then some p else none
               | none => none) := by
  obtain ⟨t0, hsel, fh, hch, hout, ht2⟩ := setupOutgoing_ok_elim hok
  simp only [Bool.false_eq_true, if_false, htgt, Option.some.injEq] at hsel
  subst hsel
  subst ht2
  rw [normalizeTarget_eq]
  exact ⟨rfl, rfl, rfl, rfl, rfl, rfl, rfl, rfl, rfl, rfl, rfl, rfl, rfl, rfl, rfl, rfl⟩

/-- Claim C3 witness: a target without a legacy `path` keeps its host
and only gains the empty query container. -/
theorem c3_wit :
    (setupOutgoing hostedOptions rootGetRequest false).toOption.map
        (fun r => (r.2.host, r.2.searchParams)) = some (some "example", some []) := by
  obtain ⟨r, hok⟩ :=
    exists_ok_of_isOkB (setupOutgoing hostedOptions rootGetRequest false) (by decide)
  have h := c3_thm hostedOptions rootGetRequest hostedTarget r.1 r.2 rfl (by rw [hok])
  rw [hok]
  show some (r.2.host, r.2.searchParams) = some (some "example", some [])
  rw [h.2.1, h.2.2.2.2.2.2.2.2.2.2.2.2.2.1]
  rfl

/-! ## Claim C9 -/

/-- A request announcing a protocol upgrade. -/
def upgradeRequest : IncomingMessage := ⟨"/", "GET", [("connection", "Upgrade")]⟩

/-- A request asking to keep the connection alive. -/
def keepAliveRequest : IncomingMessage := ⟨"/", "GET", [("connection", "keep-alive")]⟩

/-- Claim C9: with no agent configured, the descriptor's `agent` is
`false` and the outgoing `connection` header is forced to `close`
unless the merged header already contains an `upgrade` token (per the
`upgradeHeader` regex), in which case its value is kept. -/
theorem c9_thm (options : ServerOptions) (req : IncomingMessage)
    (out : OutgoingOptions) (t2 : Target)
    (hag : options.agent = false)
    (hok : setupOutgoing options req false = Except.ok (out, t2)) :
    out.agent = false ∧
    assocGet out.headers "connection"
      = some (forcedConnection (buildBaseHeaders options req)) := by
  obtain ⟨t0, hsel, fh, hch, hout, ht2⟩ := setupOutgoing_ok_elim hok
  subst hout
  refine ⟨by simp [mkOutgoing, hag], ?_⟩
  have h1 : assocGet fh "connection"
      = assocGet (applyConnectionClose options.agent (buildBaseHeaders options req))
          "connection" :=
    changeOriginHost_ok_get_ne options (normalizeTarget t0) (portOf (normalizeTarget t0))
      (applyConnectionClose options.agent (buildBaseHeaders options req)) fh "connection"
      (by decide) hch
  show assocGet fh "connection" = _
  rw [h1, hag, assocGet_applyConnectionClose_false]

/-- Claim C9 witness: `Connection: Upgrade` is kept while
`Connection: keep-alive` is forced to `close`, both with `agent`
`false` on the descriptor. -/
theorem c9_wit :
    ((setupOutgoing tlsOptions upgradeRequest false).toOption.map
        (fun r => (assocGet r.1.headers "connection", r.1.agent))
      = some (some "Upgrade", false)) ∧
    ((setupOutgoing tlsOptions keepAliveRequest false).toOption.map
        (fun r => assocGet r.1.headers "connection") = some (some "close")) := by
  constructor
  · obtain ⟨r, hok⟩ :=
      exists_ok_of_isOkB (setupOutgoing tlsOptions upgradeRequest false) (by decide)
    have h := c9_thm tlsOptions upgradeRequest r.1 r.2 rfl (by rw [hok])
    rw [hok]
    show some (assocGet r.1.headers "connection", r.1.agent) = some (some "Upgrade", false)
    rw [h.2, h.1]
    rfl
  · obtain ⟨r, hok⟩ :=
      exists_ok_of_isOkB (setupOutgoing tlsOptions keepAliveRequest false) (by decide)
    have h := c9_thm tlsOptions keepAliveRequest r.1 r.2 rfl (by rw [hok])
    rw [hok]
    show some (assocGet r.1.headers "connection") = some (some "close")
    rw [h.2]
    rfl

/-! ## Claim C4 -/

/-- A request whose own `host` header already contains a colon. -/
def colonHostRequest : IncomingMessage := ⟨"/", "GET", [("host", "client:3000")]⟩

/-- An `http:` target on a non-default port with a bare host. -/
def apiPortTarget : Target :=
  { emptyTarget with protocol := some "http:", host := some "api.example", port := some 8080 }

/-- `changeOrigin` options selecting that target. -/
def apiPortOptions : ServerOptions :=
  { emptyOptions with target := some apiPortTarget, changeOrigin := true }

/-- An `https:` target on its default port. -/
def apiHttpsTarget : Target :=
  { emptyTarget with protocol := some "https:", host := some "api.example.com" }

/-- `changeOrigin` options selecting the default-port target. -/
def apiHttpsOptions : ServerOptions :=
  { emptyOptions with target := some apiHttpsTarget, changeOrigin := true }

/-- The `changeOrigin` assignment once protocol and host exist, in
closed form: the suffix is decided by `requires-port` and by a colon
check on the target host. -/
theorem changeOriginHost_some (options : ServerOptions) (target : Target) (port : Nat)
    (headers : List (String × String)) (proto hostv : String)
    (hco : options.changeOrigin = true) (hp : target.protocol = some proto)
    (hh : target.host = some hostv) :
    changeOriginHost options target port headers
      = Except.ok (assocSet headers "host"
          (if requiresPort port proto = true ∧ hasPortStr hostv = false
           then hostv ++ ":" ++ toString port else hostv)) := by
  unfold changeOriginHost
  rw [if_pos hco, hp, hh]
  by_cases hrp : requiresPort port proto = true
  · by_cases hps : hasPortStr hostv = true
    · simp [hrp, hps]
    · simp [hrp, hps]
  · simp [hrp]

/-- Claim C4 counterexample: the inbound `host` header `client:3000`
contains a colon, so the claim demands the bare target host; the code
keys its colon check on the target host `api.example` instead and
emits `api.example:8080`. -/
theorem c4_cex :
    (setupOutgoing apiPortOptions colonHostRequest false).toOption.map
        (fun r => assocGet r.1.headers "host") = some (some "api.example:8080") ∧
    hasPortStr "client:3000" = true ∧
    ¬ ("api.example:8080" = "api.example") := ⟨rfl, rfl, by decide⟩

/-- Claim C4 (amended): under `changeOrigin`, the outgoing `host`
header gets the `:port` suffix exactly when the port is non-default for
the target's scheme (per `requires-port`) and the target host itself —
not the current host header — contains no colon; otherwise it is the
bare target host.  The `https:`/443 and `http:`/8080 examples of the
claim are unchanged. -/
theorem c4_thm (options : ServerOptions) (req : IncomingMessage) (t : Target)
    (proto hostv : String) (out : OutgoingOptions) (t2 : Target)
    (htgt : options.target = some t) (hp : t.protocol = some proto)
    (hh : t.host = some hostv) (hco : options.changeOrigin = true)
    (hok : setupOutgoing options req false = Except.ok (out, t2)) :
    out.port = t.port.getD (if isSSLTest proto then 443 else 80) ∧
    assocGet out.headers "host"
      = some (if requiresPort out.port proto = true ∧ hasPortStr hostv = false
              then hostv ++ ":" ++ toString out.port else hostv) := by
  obtain ⟨t0, hsel, fh, hch, hout, ht2⟩ := setupOutgoing_ok_elim hok
  simp only [Bool.false_eq_true, if_false, htgt, Option.some.injEq] at hsel
  subst hsel
  subst hout
  constructor
  · simp [mkOutgoing, portOf, sslOf, normalizeTarget_protocol, normalizeTarget_port, hp]
  · have hcc := changeOriginHost_some options (normalizeTarget t)
      (portOf (normalizeTarget t))
      (applyConnectionClose options.agent (buildBaseHeaders options req)) proto hostv hco
      (by rw [normalizeTarget_protocol, hp]) (by rw [normalizeTarget_host, hh])
    rw [hcc] at hch
    injection hch with hfh
    show assocGet fh "host" = _
    rw [← hfh, assocGet_assocSet_self]
    rfl

/-- Claim C4 witness: `https:` on the default port yields the bare
host `api.example.com`. -/
theorem c4_wit :
    (setupOutgoing apiHttpsOptions rootGetRequest false).toOption.map
        (fun r => assocGet r.1.headers "host") = some (some "api.example.com") := by
  obtain ⟨r, hok⟩ :=
    exists_ok_of_isOkB (setupOutgoing apiHttpsOptions rootGetRequest false) (by decide)
  have h := c4_thm apiHttpsOptions rootGetRequest apiHttpsTarget "https:" "api.example.com"
    r.1 r.2 rfl rfl rfl rfl (by rw [hok])
  rw [hok]
  show some (assocGet r.1.headers "host") = some (some "api.example.com")
  rw [h.2, h.1]
  decide

/-! ## Claim C2 -/

/-- A target with two query parameters, one shared with the request. -/
def mergeTarget : Target :=
  { emptyTarget with protocol := some "http:", host := some "h",
                     searchParams := some [("c", "3"), ("a", "9")] }

/-- Options selecting the query-merging target. -/
def mergeOptions : ServerOptions := { emptyOptions with target := some mergeTarget }

/-- A request with its own query string. -/
def mergeRequest : IncomingMessage := ⟨"/p?a=1&b=2", "GET", []⟩

/-- Claim C2 counterexample: for request query `a=1&b=2` and target
query `c=3, a=9` the outgoing path is `/p?a=9&b=2&c=3` — the key `a`
set by the target keeps its request position and the request-only key
`b` precedes the target-only key `c` — while the claim demands the
target's keys first, `?c=3&a=9&b=2`. -/
theorem c2_cex :
    (setupOutgoing mergeOptions mergeRequest false).toOption.map (fun r => r.1.path)
        = some "/p?a=9&b=2&c=3" ∧
    "?" ++ serializeQuery [("c", "3"), ("a", "9"), ("b", "2")] = "?c=3&a=9&b=2" ∧
    ¬ ("/p?a=9&b=2&c=3" = "/p?c=3&a=9&b=2") := ⟨rfl, rfl, by decide⟩

/-- Claim C2 (amended): in the merged query built by `setupOutgoing`,
every key the target sets carries the target's value and request-only
keys keep their request values, but the order follows
`URLSearchParams.set`: keys already present in the request keep their
request positions, and only target-only keys are appended after them,
in the target's insertion order. -/
theorem c2_thm (R T : List (String × String))
    (hR : (keysOf R).Nodup) (hT : (keysOf T).Nodup) :
    (∀ k v, (k, v) ∈ T → assocGet (mergeParams R T) k = some v) ∧
    (∀ k, k ∉ keysOf T → assocGet (mergeParams R T) k = assocGet R k) ∧
    keysOf (mergeParams R T)
      = keysOf R ++ (keysOf T).filter (fun k => k ∉ keysOf R) := by
  refine ⟨?_, ?_, keysOf_mergeParams T R hR hT⟩
  · intro k v hm
    exact assocGet_mergeParams_mem T R k v hT hm
  · intro k hk
    exact assocGet_mergeParams_not_mem T R k hk

/-- Claim C2 witness: on the counterexample data, the target's value
for `a` wins and the key order is request-first. -/
theorem c2_wit :
    (keysOf [("a", "1"), ("b", "2")]).Nodup ∧
    assocGet (mergeParams [("a", "1"), ("b", "2")] [("c", "3"), ("a", "9")]) "a"
      = some "9" ∧
    keysOf (mergeParams [("a", "1"), ("b", "2")] [("c", "3"), ("a", "9")])
      = ["a", "b", "c"] := by
  refine ⟨by decide, ?_, ?_⟩
  · exact (c2_thm [("a", "1"), ("b", "2")] [("c", "3"), ("a", "9")]
      (by decide) (by decide)).1 "a" "9" (by decide)
  · rw [(c2_thm [("a", "1"), ("b", "2")] [("c", "3"), ("a", "9")]
      (by decide) (by decide)).2.2]
    decide

/-! ## Claim C8 -/

/-- A target carrying the pathname `/api`. -/
def apiPathTarget : Target :=
  { emptyTarget with protocol := some "http:", host := some "h", pathname := some "/api" }

/-- Options with `prependPath` explicitly `false`. -/
def noPrependOptions : ServerOptions :=
  { emptyOptions with target := some apiPathTarget, prependPath := some false }

/-- A request whose own path happens to start with `/api`. -/
def apiSubRequest : IncomingMessage := ⟨"/api/x", "GET", []⟩

/-- Claim C8 counterexample: with `prependPath := false` the inbound
path `/api/x` survives unchanged, so the outgoing path does contain the
target's pathname `/api` as a prefix. -/
theorem c8_cex :
    (setupOutgoing noPrependOptions apiSubRequest false).toOption.map (fun r => r.1.path)
        = some "/api/x" ∧
    apiPathTarget.pathname = some "/api" ∧
    "/api".data.isPrefixOf "/api/x".data = true := ⟨rfl, rfl, by decide⟩

/-- With `prependPath === false` the target's pathname has no influence
on the outgoing path. -/
theorem setupOutgoingSome_path_pathname_none (options : ServerOptions)
    (req : IncomingMessage) (t : Target) (hpp : options.prependPath = some false) :
    (setupOutgoingSome options req t).map (fun r => r.1.path)
      = (setupOutgoingSome options req { t with pathname := none }).map
          (fun r => r.1.path) := by
  unfold setupOutgoingSome
  have hnp : (normalizeTarget { t with pathname := none }).protocol
      = (normalizeTarget t).protocol := by
    rw [normalizeTarget_protocol, normalizeTarget_protocol]
  have hnh : (normalizeTarget { t with pathname := none }).host
      = (normalizeTarget t).host := by
    rw [normalizeTarget_host, normalizeTarget_host]
  have hnport : portOf (normalizeTarget { t with pathname := none })
      = portOf (normalizeTarget t) := by
    apply portOf_congr
    · exact hnp
    · rw [normalizeTarget_port, normalizeTarget_port]
  have hnsp : (normalizeTarget { t with pathname := none }).searchParams
      = (normalizeTarget t).searchParams := by
    rw [normalizeTarget_searchParams, normalizeTarget_searchParams]
  rw [hnport, changeOriginHost_congr options (normalizeTarget { t with pathname := none })
    (normalizeTarget t) (portOf (normalizeTarget t))
    (applyConnectionClose options.agent (buildBaseHeaders options req)) hnp hnh]
  cases hX : changeOriginHost options (normalizeTarget t) (portOf (normalizeTarget t))
      (applyConnectionClose options.agent (buildBaseHeaders options req)) with
  | error e => rfl
  | ok fh =>
    show Except.ok (computePath options (normalizeTarget t) req)
        = Except.ok (computePath options (normalizeTarget { t with pathname := none }) req)
    rw [computePath_prependPath_false options (normalizeTarget t)
      (normalizeTarget { t with pathname := none }) req hpp hnsp.symm]

/-- Claim C8 (amended): when `config.prependPath` is explicitly
`false`, the target's pathname is simply not prepended — the outgoing
path equals the one computed for the same target with its pathname
removed (and may still contain that pathname as a prefix when the
inbound path supplies it). -/
theorem c8_thm (options : ServerOptions) (req : IncomingMessage) (t : Target)
    (hpp : options.prependPath = some false) (htgt : options.target = some t) :
    (setupOutgoing options req false).map (fun r => r.1.path)
      = (setupOutgoing { options with target := some { t with pathname := none } }
          req false).map (fun r => r.1.path) := by
  have hred : setupOutgoing options req false = setupOutgoingSome options req t := by
    unfold setupOutgoing
    rw [if_neg (by simp), htgt]
  have hred2 : setupOutgoing { options with target := some { t with pathname := none } }
      req false = setupOutgoingSome options req { t with pathname := none } := by
    unfold setupOutgoing
    rw [if_neg (by simp)]
    rfl
  rw [hred, hred2]
  exact setupOutgoingSome_path_pathname_none options req t hpp

/-- Claim C8 witness: the amended statement applied to the concrete
`/api` target and `/api/x` request. -/
theorem c8_wit :
    (setupOutgoing noPrependOptions apiSubRequest false).map (fun r => r.1.path)
      = (setupOutgoing
          { noPrependOptions with target := some { apiPathTarget with pathname := none } }
          apiSubRequest false).map (fun r => r.1.path) :=
  c8_thm noPrependOptions apiSubRequest apiPathTarget rfl rfl

/-! ## Claim C6 -/

/-- The example rewrite map of the claim: rewrite `example.com`,
delete every other domain. -/
def exampleMap : CookieMap := [("example.com", some "proxy.local"), ("*", none)]

/-- `rewriteCookieProperty` rewrites exactly the first case-insensitive
`; name=value` clause — located by `findClause` — via the lookup
closure `applyRewrite`, keeps everything before and after the clause
byte-for-byte, returns the header unchanged when the `in` test matches
neither the captured value nor `*`, and reproduces the spec's two
examples. -/
theorem rewriteCookieProperty_first_clause (header : String) (cfg : CookieMap)
    (property : String) :
    (findClause (property.data.map Char.toLower) header.data = none →
      rewriteCookieProperty header cfg property = header) ∧
    (∀ before g1 g2 after,
      findClause (property.data.map Char.toLower) header.data
          = some (before, g1, g2, after) →
      rewriteCookieProperty header cfg property
          = String.mk (before ++ (applyRewrite cfg g1 g2 ++ after)) ∧
      header.data = before ++ g1 ++ g2 ++ after ∧
      (cfgHas cfg (String.mk g2) = false → cfgHas cfg "*" = false →
        rewriteCookieProperty header cfg property = header)) ∧
    rewriteCookieProperty "sessionid=abc; Domain=example.com; Path=/" exampleMap "domain"
      = "sessionid=abc; Domain=proxy.local; Path=/" ∧
    rewriteCookieProperty "sessionid=abc; Domain=other.com; Path=/" exampleMap "domain"
      = "sessionid=abc; Path=/" := by
  refine ⟨?_, ?_, by decide, by decide⟩
  · intro hnone
    unfold rewriteCookieProperty
    rw [rewriteScan_eq, hnone]
  · intro before g1 g2 after hsome
    have hdec := findClause_decomp (property.data.map Char.toLower) header.data
      before g1 g2 after hsome
    refine ⟨?_, hdec, ?_⟩
    · unfold rewriteCookieProperty
      rw [rewriteScan_eq, hsome]
    · intro hhas hstar
      unfold rewriteCookieProperty
      rw [rewriteScan_eq, hsome]
      show String.mk (before ++ (applyRewrite cfg g1 g2 ++ after)) = header
      unfold applyRewrite
      rw [hhas, hstar]
      simp only [Bool.false_eq_true, if_false]
      have heta : String.mk header.data = header := rfl
      rw [← heta, hdec]
      simp [List.append_assoc]

/-- The clause characterization applied at a concrete header, map and
match. -/
theorem rewriteCookieProperty_example :
    rewriteCookieProperty "a=b; domain=x; q=1" [("x", some "y")] "domain"
      = "a=b; domain=y; q=1" := by
  have h := ((rewriteCookieProperty_first_clause "a=b; domain=x; q=1"
    [("x", some "y")] "domain").2.1
    "a=b".data "; domain=".data "x".data "; q=1".data (by decide)).1
  rw [h]
  decide

/-- Claim C6 (code bug): line 202 tests `previousValue in config` and
line 203 reads `config[previousValue]`, both of which traverse the
prototype chain of the plain-object rewrite map.  A captured value
naming an inherited `Object.prototype` member — here `toString`, not
an own key of the map — is therefore treated as matched, and the
inherited function (truthy) is substituted, stringified, into the
header; the claimed exact-key lookup with `*` fallback would instead
have hit the map's `*` entry, whose `null` deletes the clause. -/
theorem c6_thm :
    rewriteCookieProperty "sessionid=abc; Domain=toString; Path=/" exampleMap "domain"
      = "sessionid=abc; Domain=function toString() \x7b [native code] \x7d; Path=/" ∧
    cfgHasOwn exampleMap "toString" = false ∧
    cfgGetOwn exampleMap "*" = none ∧
    ¬ (rewriteCookieProperty "sessionid=abc; Domain=toString; Path=/" exampleMap "domain"
        = "sessionid=abc; Path=/") := by
  refine ⟨rfl, rfl, rfl, by decide⟩

end HttpProxy
